import Mathlib

/-!
joytest: the event loop of `joytest.cc`

A shallow embedding of `main` of `src/joytest/joytest.cc`:

* the record `js_event` and the constants of the joystick ABI,
* the two `std::map`s `buttons` and `axes` as association lists kept in
  ascending key order,
* the update of the maps by one record (lines 37-44),
* the redraw after each record (lines 45-60) as the list of output calls it
  makes, together with the text each call writes,
* the read loop (lines 35-61) over a sequence of `read` results.
-/

namespace Joytest

/-! ## The joystick ABI -/

/-- Modelled from the spec: the constant `JS_EVENT_BUTTON` of the system header
`linux/joystick.h`, which is not under `src/`; the record type "encodes BUTTON /
AXIS in its low bits", the ABI value is `0x01`. -/
def JS_EVENT_BUTTON : Nat := 0x01

/-- Modelled from the spec: the constant `JS_EVENT_AXIS` of the system header
`linux/joystick.h`, which is not under `src/`; the ABI value is `0x02`. -/
def JS_EVENT_AXIS : Nat := 0x02

/-- Modelled from the spec: the constant `JS_EVENT_INIT` of the system header
`linux/joystick.h`, which is not under `src/`: the "initial value" flag "in a
high bit" of the type; the ABI value is `0x80`. -/
def JS_EVENT_INIT : Nat := 0x80

/-- Modelled from the spec: the record `struct js_event` of `linux/joystick.h`,
which is not under `src/`: "32-bit timestamp, signed 16-bit value, unsigned
8-bit type, unsigned 8-bit number". The two unsigned bytes are `Fin 256`;
`time` and `value` are the integers their fields denote. -/
structure js_event where
  time : Int
  value : Int
  type : Fin 256
  number : Fin 256
deriving DecidableEq, Repr

/-- Modelled from the spec: `sizeof(js_event)`, "total record size fixed" by
the ABI: 4 + 2 + 1 + 1 bytes. -/
def sizeofEv : Int := 8

/-- The range of a signed 16-bit field such as `js_event.value`. -/
def IsS16 (v : Int) : Prop := -32768 ≤ v ∧ v ≤ 32767

instance (v : Int) : Decidable (IsS16 v) := by
  unfold IsS16; infer_instance

/-! ## Machine arithmetic on `int` -/

/-- The value of a mathematical integer stored in a 32-bit two's complement
`int`. -/
def wrap32 (z : Int) : Int := (z + 2 ^ 31) % 2 ^ 32 - 2 ^ 31

/-- The product of two `int`s. -/
def mul32 (a b : Int) : Int := wrap32 (a * b)

/-- The sum of two `int`s. -/
def add32 (a b : Int) : Int := wrap32 (a + b)

/-- The quotient `a / b` of two `int`s: C++ division truncates toward zero. -/
def div32 (a b : Int) : Int := wrap32 (Int.tdiv a b)

/-! ## `std::map<int, T>` as an ascending association list -/

/-- The value stored under key `k`, if any (`find`). -/
def mapFind {α : Type} (k : Int) : List (Int × α) → Option α
  | [] => none
  | (k', v) :: t => if k' = k then some v else mapFind k t

/-- The member `count` of `std::map`: 1 when the key is present, else 0. -/
def mapCount {α : Type} (k : Int) (m : List (Int × α)) : Nat :=
  if (mapFind k m).isSome then 1 else 0

/-- The assignment `m[k] = v`: overwrite the entry of `k`, or insert it at its
place in key order. -/
def mapSet {α : Type} (k : Int) (v : α) : List (Int × α) → List (Int × α)
  | [] => [(k, v)]
  | (k', v') :: t =>
    if k < k' then (k, v) :: (k', v') :: t
    else if k = k' then (k, v) :: t
    else (k', v') :: mapSet k v t

/-- The read access `m[k]` of `std::map<int, int>`: the stored value, and the
map afterwards; an absent key is first inserted with the value `0`. -/
def mapAt (k : Int) (m : List (Int × Int)) : Int × List (Int × Int) :=
  match mapFind k m with
  | some v => (v, m)
  | none => (0, mapSet k 0 m)

/-- The representation invariant of `std::map`: keys strictly ascending. -/
def KeysAscending {α : Type} (m : List (Int × α)) : Prop :=
  m.Pairwise (fun a b => a.1 < b.1)

instance {α : Type} (m : List (Int × α)) : Decidable (KeysAscending m) := by
  unfold KeysAscending; infer_instance

/-! ## Program state -/

/-- The two maps of `main` (lines 33-34). -/
structure State where
  buttons : List (Int × Bool)
  axes : List (Int × Int)
deriving DecidableEq, Repr

/-- Both maps empty, as declared before the loop. -/
def State.init : State := ⟨[], []⟩

/-- Both maps satisfy the invariant of `std::map`. -/
def State.WF (st : State) : Prop :=
  KeysAscending st.buttons ∧ KeysAscending st.axes

instance (st : State) : Decidable st.WF := by
  unfold State.WF; infer_instance

/-! ## Update by one record (lines 37-44) -/

/-- The expression `ev.type & ~JS_EVENT_INIT`: the byte is promoted to `int` and
`~JS_EVENT_INIT` is the 32-bit pattern `0xFFFFFFFF - 0x80`. -/
def maskInit (t : Fin 256) : Nat := t.val &&& (0xFFFFFFFF - JS_EVENT_INIT)

/-- The condition of line 37. -/
def isButton (ev : js_event) : Prop := maskInit ev.type = JS_EVENT_BUTTON

/-- The condition of line 41, reached when line 37 fails. -/
def isAxis (ev : js_event) : Prop :=
  ¬ maskInit ev.type = JS_EVENT_BUTTON ∧ maskInit ev.type = JS_EVENT_AXIS

instance (ev : js_event) : Decidable (isButton ev) := by
  unfold isButton; infer_instance

instance (ev : js_event) : Decidable (isAxis ev) := by
  unfold isAxis; infer_instance

/-- Lines 37-44: the effect of one record on the maps. -/
def update (ev : js_event) (st : State) : State :=
  if maskInit ev.type = JS_EVENT_BUTTON then
    { st with buttons := mapSet (ev.number.val : Int) (decide (ev.value ≠ 0)) st.buttons }
  else if maskInit ev.type = JS_EVENT_AXIS then
    { st with axes := mapSet (ev.number.val : Int) ev.value st.axes }
  else st

/-! ## Redraw (lines 45-60) -/

/-- One output call of the redraw, with its arguments. -/
inductive Out where
  | home
  | buttonLine (id : Int) (pressed : Bool)
  | axisLine (id : Int) (v : Int)
  | cursor (y x : Int)
  | flush
deriving DecidableEq, Repr

/-- The characters one output call writes to standard output. -/
def Out.text : Out → String
  | .home => "\x1b[H"
  | .buttonLine id pressed =>
    "Button #" ++ toString id ++ ": " ++ (if pressed then "ON" else "OFF") ++ "\x1b[K\n"
  | .axisLine id v => "Axis #" ++ toString id ++ ": " ++ toString v ++ "\x1b[K\n"
  | .cursor y x => "\x1b[" ++ toString y ++ ";" ++ toString x ++ "H"
  | .flush => ""

/-- The characters a sequence of output calls writes. -/
def emit : List Out → String
  | [] => ""
  | o :: os => o.text ++ emit os

/-- Line 56: the column from the first axis of the pair. -/
def cursorX (a : Int) : Int := add32 (add32 (div32 (mul32 a 20) 32767) 20) 1

/-- Line 57: the row from the second axis of the pair. -/
def cursorY (b : Int) : Int := add32 (add32 (div32 (mul32 b 10) 32767) 10) 1

/-- Lines 45-53: the home sequence, one line per button, one line per axis. -/
def drawLines (st : State) : List Out :=
  Out.home ::
    (st.buttons.map (fun btn => Out.buttonLine btn.1 btn.2) ++
      st.axes.map (fun ax => Out.axisLine ax.1 ax.2))

/-- Lines 45-60: one redraw. It returns the maps as well, since `axes[axis]`
and `axes[axis+1]` are accesses that may write. `axis + 1` is exact: it is
evaluated only when `axis` is a key. -/
def render (axis : Int) (st : State) : State × List Out :=
  if mapCount axis st.axes ≠ 0 ∧ mapCount (axis + 1) st.axes ≠ 0 then
    let r1 := mapAt axis st.axes
    let x := cursorX r1.1
    let r2 := mapAt (axis + 1) r1.2
    let y := cursorY r2.1
    ({ st with axes := r2.2 }, drawLines st ++ [Out.cursor y x, Out.flush])
  else
    (st, drawLines st)

/-! ## The read loop (lines 35-61) -/

/-- One call `read(fd, &ev, sizeof(ev))`: the count returned and the contents of
the buffer `ev` afterwards. -/
structure ReadResult where
  count : Int
  ev : js_event
deriving DecidableEq, Repr

/-- A read that delivered the record `e` whole. -/
def fullRead (e : js_event) : ReadResult := ⟨sizeofEv, e⟩

/-- One iteration of the loop body: update, then redraw. -/
def iteration (axis : Int) (ev : js_event) (st : State) : State × List Out :=
  render axis (update ev st)

/-- What the loop leaves behind. -/
structure LoopResult where
  state : State
  out : List Out
  reads : Nat
  unread : List ReadResult
deriving DecidableEq, Repr

/-- Lines 35-61. `input` lists the results of the successive calls of `read`;
past its end `read` returns 0. `reads` counts the calls made and `unread` is
the input never asked for. The test `read(...) == sizeof(ev)` holds for the
count 8 alone: the count is at most 8, and -1 converts to an unsigned value
far above it. -/
def loop (axis : Int) : List ReadResult → State → LoopResult
  | [], st => ⟨st, [], 1, []⟩
  | r :: rest, st =>
    if r.count = sizeofEv then
      let it := iteration axis r.ev st
      let k := loop axis rest it.1
      ⟨k.state, it.2 ++ k.out, k.reads + 1, k.unread⟩
    else ⟨st, [], 1, rest⟩

/-- The outcome of a run of `main`. -/
structure ProgramResult where
  exitCode : Int
  stdout : List Out
  stderr : List String
deriving DecidableEq, Repr

/-- Lines 32-62: `main` once the device is open. Control falls off the end of
`main`, which returns 0; nothing is written to standard error. -/
def mainLoop (axis : Int) (input : List ReadResult) : ProgramResult :=
  ⟨0, (loop axis input State.init).out, []⟩

/-- The maps after the records `evs` have been processed, from empty maps. -/
def stateAfter (evs : List js_event) : State :=
  evs.foldl (fun st ev => update ev st) State.init

/-- The output of the successive redraws while the records `evs` are processed
from the state `st`. -/
def renders (axis : Int) : List js_event → State → List Out
  | [], _ => []
  | e :: es, st => (iteration axis e st).2 ++ renders axis es (iteration axis e st).1

/-- The test of line 35 on one read result. -/
def isFull (r : ReadResult) : Bool := decide (r.count = sizeofEv)

/-- The records of the longest prefix of `input` made of full reads. -/
def fullRecords (input : List ReadResult) : List js_event :=
  (input.takeWhile isFull).map ReadResult.ev

/-- The input after the first read that is not full. -/
def afterStop (input : List ReadResult) : List ReadResult :=
  (input.dropWhile isFull).tail

/-- The type byte with the init flag set. -/
def setInit (t : Fin 256) : Fin 256 := t ||| 0x80

/-- The type byte with the init flag cleared. -/
def clearInit (t : Fin 256) : Fin 256 := t &&& 0x7F

/-- The keys of a map, in iteration order. -/
def keys {α : Type} (m : List (Int × α)) : List Int := m.map Prod.fst

/-! ## Arguments and the whole of `main` (lines 11-31) -/

/-- Modelled from the spec: the C library test `isspace`, which is not under
`src/`: blank, and the control characters 9 to 13. -/
def isSpaceC (c : Char) : Bool :=
  c.toNat = 32 || (9 ≤ c.toNat && c.toNat ≤ 13)

/-- The value of the leading decimal digits of `cs`, continuing from `acc`. -/
def atolDigits : List Char → Int → Int
  | [], acc => acc
  | c :: cs, acc =>
    if 48 ≤ c.toNat ∧ c.toNat ≤ 57 then atolDigits cs (acc * 10 + ((c.toNat : Int) - 48))
    else acc

/-- The base-10 integer value a string denotes, "parsed as a base-10 integer":
leading white space, an optional sign, then the decimal digits up to the first
other character, 0 when there is none. The value is the mathematical one,
however many digits there are. -/
def decimalValue (s : String) : Int :=
  match s.toList.dropWhile isSpaceC with
  | [] => 0
  | c :: cs =>
    if c = '-' then - atolDigits cs 0
    else if c = '+' then atolDigits cs 0
    else atolDigits (c :: cs) 0

/-- The largest value of a `long`, of 64 bits. -/
def LONG_MAX : Int := 9223372036854775807

/-- The smallest value of a `long`, of 64 bits. -/
def LONG_MIN : Int := -9223372036854775808

/-- Modelled from the spec: the C library function `atol`, which is not under
`src/`; the argument is "parsed as a base-10 integer" into a `long`. It is
`strtol` in base 10: the value the digits denote, and `LONG_MAX` or `LONG_MIN`
when that value is beyond the range of a `long`. -/
def atol (s : String) : Int :=
  max LONG_MIN (min LONG_MAX (decimalValue s))

/-- Lines 13 and 20-23: the variable `axis`. `args` are the arguments after the
program name, so `argc = args.length + 1` and `argv[2]` is the second of them;
the `long` that `atol` returns is stored in an `int`. -/
def selectedAxis (args : List String) : Int :=
  if args.length + 1 = 3 then wrap32 (atol (args.getD 1 "")) else 0

/-- One call that writes to standard output: the usage line of line 16, or a
call of the redraw. -/
inductive MainOut where
  | usage (prog : String)
  | draw (o : Out)
deriving DecidableEq, Repr

/-- The characters one call writes to standard output. -/
def MainOut.text : MainOut → String
  | .usage prog => "Usage: " ++ prog ++ " /dev/input/js0 [axis]\n"
  | .draw o => o.text

/-- Modelled from the spec: the C library function `perror`, which is not under
`src/`: it "prints the path alongside a diagnostic reason" on standard error,
the path and a colon being left out for an empty string. -/
def perror (s msg : String) : String :=
  (if s = "" then "" else s ++ ": ") ++ msg ++ "\n"

/-- What a run of `main` does: the exit code, the calls that wrote to standard
output, the lines on standard error, the paths given to `open`, and the number
of calls of `read`. -/
structure MainResult where
  exitCode : Int
  stdout : List MainOut
  stderr : List String
  opened : List String
  reads : Nat
deriving DecidableEq, Repr

/-- Lines 11-62. `prog` is `argv[0]` and `args` the arguments after it (so
`argc ≥ 1`); `fs` gives for a path what `open` does with it: the reason of the
failure, or the results of the reads from the opened device. -/
def main (prog : String) (args : List String)
    (fs : String → Except String (List ReadResult)) : MainResult :=
  match args with
  | [] => ⟨1, [MainOut.usage prog], [], [], 0⟩
  | path :: _ =>
    match fs path with
    | .error msg => ⟨1, [], [perror path msg], [path], 0⟩
    | .ok input =>
      ⟨(mainLoop (selectedAxis args) input).exitCode,
        (mainLoop (selectedAxis args) input).stdout.map MainOut.draw,
        (mainLoop (selectedAxis args) input).stderr,
        [path],
        (loop (selectedAxis args) input State.init).reads⟩

/-- A read result with the timestamp of its record replaced. -/
def retime (g : js_event → Int) (r : ReadResult) : ReadResult :=
  ⟨r.count, { r.ev with time := g r.ev }⟩

/-- An output call of the cursor step (lines 58-59). -/
def isCursorStep : Out → Bool
  | .cursor _ _ => true
  | .flush => true
  | _ => false

/-- Every key of both maps is a value of an unsigned byte. -/
def State.KeysInByte (st : State) : Prop :=
  (∀ k ∈ keys st.buttons, 0 ≤ k ∧ k ≤ 255) ∧ (∀ k ∈ keys st.axes, 0 ≤ k ∧ k ≤ 255)

/-! ## Lemmas on the maps -/

theorem mapFind_mapSet_self {α : Type} (k : Int) (v : α) (m : List (Int × α)) :
    mapFind k (mapSet k v m) = some v := by
  induction m with
  | nil => simp [mapSet, mapFind]
  | cons p t ih =>
    obtain ⟨k', v'⟩ := p
    simp only [mapSet]
    split_ifs with h1 h2
    · simp [mapFind]
    · simp [mapFind]
    · have h3 : ¬ k' = k := fun h => h2 h.symm
      simp [mapFind, h3, ih]

theorem mapFind_mapSet_ne {α : Type} (j k : Int) (v : α) (m : List (Int × α)) (h : j ≠ k) :
    mapFind j (mapSet k v m) = mapFind j m := by
  have hkj : ¬ k = j := fun e => h e.symm
  induction m with
  | nil => simp [mapSet, mapFind, hkj]
  | cons p t ih =>
    obtain ⟨k', v'⟩ := p
    simp only [mapSet]
    split_ifs with h1 h2
    · simp [mapFind, hkj]
    · subst h2
      simp [mapFind, hkj]
    · simp only [mapFind, ih]

theorem mapFind_isSome_iff {α : Type} (k : Int) (m : List (Int × α)) :
    (mapFind k m).isSome ↔ k ∈ keys m := by
  induction m with
  | nil => simp [mapFind, keys]
  | cons p t ih =>
    obtain ⟨k', v'⟩ := p
    simp only [mapFind, keys, List.map_cons, List.mem_cons]
    split_ifs with h1
    · simp [h1]
    · have h2 : ¬ k = k' := fun e => h1 e.symm
      simp only [keys] at ih
      simp [h2, ih]

theorem mapFind_some_mem {α : Type} (k : Int) (v : α) (m : List (Int × α))
    (h : mapFind k m = some v) : (k, v) ∈ m := by
  induction m with
  | nil => simp [mapFind] at h
  | cons p t ih =>
    obtain ⟨k', v'⟩ := p
    simp only [mapFind] at h
    split_ifs at h with h1
    · simp only [Option.some.injEq] at h
      subst h1; subst h
      exact List.mem_cons_self _ _
    · exact List.mem_cons_of_mem _ (ih h)

theorem mem_mapFind_of_ascending {α : Type} (k : Int) (v : α) (m : List (Int × α))
    (hs : KeysAscending m) (h : (k, v) ∈ m) : mapFind k m = some v := by
  induction m with
  | nil => simp at h
  | cons p t ih =>
    obtain ⟨k', v'⟩ := p
    unfold KeysAscending at hs
    rw [List.pairwise_cons] at hs
    rcases List.mem_cons.mp h with h1 | h1
    · simp only [Prod.mk.injEq] at h1
      simp [mapFind, h1.1, h1.2]
    · have hlt : k' < k := hs.1 (k, v) h1
      have hne : ¬ k' = k := by omega
      simp only [mapFind, hne, if_false]
      exact ih hs.2 h1

theorem mem_mapSet {α : Type} (k : Int) (v : α) (m : List (Int × α)) (p : Int × α)
    (h : p ∈ mapSet k v m) : p = (k, v) ∨ p ∈ m := by
  induction m with
  | nil => simp [mapSet] at h; exact Or.inl h
  | cons q t ih =>
    obtain ⟨k', v'⟩ := q
    simp only [mapSet] at h
    split_ifs at h with h1 h2
    · rcases List.mem_cons.mp h with h3 | h3
      · exact Or.inl h3
      · exact Or.inr h3
    · rcases List.mem_cons.mp h with h3 | h3
      · exact Or.inl h3
      · exact Or.inr (List.mem_cons_of_mem _ h3)
    · rcases List.mem_cons.mp h with h3 | h3
      · exact Or.inr (h3 ▸ List.mem_cons_self _ _)
      · rcases ih h3 with h4 | h4
        · exact Or.inl h4
        · exact Or.inr (List.mem_cons_of_mem _ h4)

theorem mapSet_ascending {α : Type} (k : Int) (v : α) (m : List (Int × α))
    (hs : KeysAscending m) : KeysAscending (mapSet k v m) := by
  induction m with
  | nil => simp [mapSet, KeysAscending]
  | cons q t ih =>
    obtain ⟨k', v'⟩ := q
    unfold KeysAscending at hs ⊢
    have hs' := List.pairwise_cons.mp hs
    simp only [mapSet]
    split_ifs with h1 h2
    · refine List.pairwise_cons.mpr ⟨?_, hs⟩
      intro a ha
      rcases List.mem_cons.mp ha with h3 | h3
      · subst h3; exact h1
      · have := hs'.1 a h3
        simp only at this ⊢
        omega
    · subst h2
      exact List.pairwise_cons.mpr ⟨hs'.1, hs'.2⟩
    · refine List.pairwise_cons.mpr ⟨?_, ih hs'.2⟩
      intro a ha
      rcases mem_mapSet k v t a ha with h3 | h3
      · subst h3
        simp only
        omega
      · exact hs'.1 a h3

theorem mapCount_ne_zero_iff {α : Type} (k : Int) (m : List (Int × α)) :
    mapCount k m ≠ 0 ↔ (mapFind k m).isSome := by
  unfold mapCount
  split_ifs with h <;> simp [h]

theorem mapAt_of_find (k v : Int) (m : List (Int × Int)) (h : mapFind k m = some v) :
    mapAt k m = (v, m) := by
  simp [mapAt, h]

/-! ## Lemmas on update, redraw and loop -/

theorem update_WF (ev : js_event) (st : State) (h : st.WF) : (update ev st).WF := by
  unfold update
  split_ifs
  · exact ⟨mapSet_ascending _ _ _ h.1, h.2⟩
  · exact ⟨h.1, mapSet_ascending _ _ _ h.2⟩
  · exact h

theorem render_state (axis : Int) (st : State) : (render axis st).1 = st := by
  unfold render
  split_ifs with h
  · obtain ⟨h1, h2⟩ := h
    rw [mapCount_ne_zero_iff] at h1 h2
    obtain ⟨a, ha⟩ := Option.isSome_iff_exists.mp h1
    obtain ⟨b, hb⟩ := Option.isSome_iff_exists.mp h2
    simp [mapAt_of_find _ _ _ ha, mapAt_of_find _ _ _ hb]
  · rfl

theorem iteration_state (axis : Int) (ev : js_event) (st : State) :
    (iteration axis ev st).1 = update ev st := by
  unfold iteration
  exact render_state axis _

theorem iteration_out (axis : Int) (ev : js_event) (st : State) :
    (iteration axis ev st).2 = (render axis (update ev st)).2 := rfl

theorem foldl_update_WF (evs : List js_event) (st : State) (h : st.WF) :
    (evs.foldl (fun s e => update e s) st).WF := by
  induction evs generalizing st with
  | nil => exact h
  | cons e es ih => exact ih _ (update_WF e st h)

theorem stateAfter_WF (evs : List js_event) : (stateAfter evs).WF :=
  foldl_update_WF evs State.init (by decide)

theorem loop_cons_full (axis : Int) (e : js_event) (rest : List ReadResult) (st : State) :
    loop axis (fullRead e :: rest) st =
      ⟨(loop axis rest (update e st)).state,
        (render axis (update e st)).2 ++ (loop axis rest (update e st)).out,
        (loop axis rest (update e st)).reads + 1,
        (loop axis rest (update e st)).unread⟩ := by
  have h : (fullRead e).count = sizeofEv := rfl
  rw [loop, if_pos h]
  simp only [fullRead, iteration_state, iteration_out]

theorem loop_cons_short (axis : Int) (r : ReadResult) (rest : List ReadResult) (st : State)
    (h : r.count ≠ sizeofEv) : loop axis (r :: rest) st = ⟨st, [], 1, rest⟩ := by
  rw [loop, if_neg h]

theorem renders_cons (axis : Int) (e : js_event) (es : List js_event) (st : State) :
    renders axis (e :: es) st = (render axis (update e st)).2 ++ renders axis es (update e st) := by
  simp only [renders, iteration_state, iteration_out]

theorem loop_full_append (axis : Int) (evs : List js_event) (rest : List ReadResult)
    (st : State) :
    loop axis (evs.map fullRead ++ rest) st =
      ⟨(loop axis rest (evs.foldl (fun s e => update e s) st)).state,
        renders axis evs st ++ (loop axis rest (evs.foldl (fun s e => update e s) st)).out,
        (loop axis rest (evs.foldl (fun s e => update e s) st)).reads + evs.length,
        (loop axis rest (evs.foldl (fun s e => update e s) st)).unread⟩ := by
  induction evs generalizing st with
  | nil => simp [renders]
  | cons e es ih =>
    rw [List.map_cons, List.cons_append, loop_cons_full, ih, renders_cons]
    simp [List.append_assoc, Nat.add_assoc]

theorem loop_full_state (axis : Int) (evs : List js_event) (st : State) :
    (loop axis (evs.map fullRead) st).state = evs.foldl (fun s e => update e s) st := by
  have h := loop_full_append axis evs [] st
  rw [List.append_nil] at h
  rw [h]
  simp [loop]

/-! ## Lookups after an update -/

theorem update_buttons_find (ev : js_event) (st : State) (n : Int) :
    mapFind n (update ev st).buttons =
      if isButton ev ∧ (ev.number.val : Int) = n then some (decide (ev.value ≠ 0))
      else mapFind n st.buttons := by
  unfold update isButton
  by_cases hb : maskInit ev.type = JS_EVENT_BUTTON
  · by_cases hn : (ev.number.val : Int) = n
    · simp only [hb, hn, if_true, and_self]
      exact mapFind_mapSet_self _ _ _
    · simp only [hb, hn, if_true, and_false, if_false]
      exact mapFind_mapSet_ne _ _ _ _ (fun e => hn e.symm)
  · simp only [hb, if_false, false_and]
    split_ifs <;> rfl

theorem update_axes_find (ev : js_event) (st : State) (n : Int) :
    mapFind n (update ev st).axes =
      if isAxis ev ∧ (ev.number.val : Int) = n then some ev.value
      else mapFind n st.axes := by
  unfold update isAxis
  by_cases hb : maskInit ev.type = JS_EVENT_BUTTON
  · simp [hb]
  · by_cases ha : maskInit ev.type = JS_EVENT_AXIS
    · by_cases hn : (ev.number.val : Int) = n
      · simp only [hb, ha, hn, if_true, if_false, and_self, not_false_eq_true]
        exact mapFind_mapSet_self _ _ _
      · simp only [hb, ha, hn, if_true, if_false, and_false, not_false_eq_true]
        exact mapFind_mapSet_ne _ _ _ _ (fun e => hn e.symm)
    · simp [hb, ha]

theorem foldl_buttons_isSome (evs : List js_event) (st : State) (n : Int) :
    (mapFind n (evs.foldl (fun s e => update e s) st).buttons).isSome ↔
      (mapFind n st.buttons).isSome ∨ ∃ e ∈ evs, isButton e ∧ (e.number.val : Int) = n := by
  induction evs generalizing st with
  | nil => simp
  | cons e es ih =>
    rw [List.foldl_cons, ih, update_buttons_find]
    by_cases h : isButton e ∧ (e.number.val : Int) = n
    · simp only [h, and_self, if_true, Option.isSome_some, true_or, true_iff]
      exact Or.inr ⟨e, List.mem_cons_self _ _, h⟩
    · simp only [h, if_false, List.mem_cons, exists_eq_or_imp, false_or]

theorem foldl_axes_isSome (evs : List js_event) (st : State) (n : Int) :
    (mapFind n (evs.foldl (fun s e => update e s) st).axes).isSome ↔
      (mapFind n st.axes).isSome ∨ ∃ e ∈ evs, isAxis e ∧ (e.number.val : Int) = n := by
  induction evs generalizing st with
  | nil => simp
  | cons e es ih =>
    rw [List.foldl_cons, ih, update_axes_find]
    by_cases h : isAxis e ∧ (e.number.val : Int) = n
    · simp only [h, and_self, if_true, Option.isSome_some, true_or, true_iff]
      exact Or.inr ⟨e, List.mem_cons_self _ _, h⟩
    · simp only [h, if_false, List.mem_cons, exists_eq_or_imp, false_or]

theorem foldl_buttons_untouched (evs : List js_event) (st : State) (n : Int)
    (h : ∀ e ∈ evs, ¬ (isButton e ∧ (e.number.val : Int) = n)) :
    mapFind n (evs.foldl (fun s e => update e s) st).buttons = mapFind n st.buttons := by
  induction evs generalizing st with
  | nil => rfl
  | cons e es ih =>
    rw [List.foldl_cons, ih _ (fun e' he' => h e' (List.mem_cons_of_mem _ he')),
      update_buttons_find, if_neg (h e (List.mem_cons_self _ _))]

theorem foldl_axes_untouched (evs : List js_event) (st : State) (n : Int)
    (h : ∀ e ∈ evs, ¬ (isAxis e ∧ (e.number.val : Int) = n)) :
    mapFind n (evs.foldl (fun s e => update e s) st).axes = mapFind n st.axes := by
  induction evs generalizing st with
  | nil => rfl
  | cons e es ih =>
    rw [List.foldl_cons, ih _ (fun e' he' => h e' (List.mem_cons_of_mem _ he')),
      update_axes_find, if_neg (h e (List.mem_cons_self _ _))]

theorem foldl_buttons_last (pre post : List js_event) (e : js_event) (st : State) (n : Int)
    (hb : isButton e) (hn : (e.number.val : Int) = n)
    (h : ∀ e' ∈ post, ¬ (isButton e' ∧ (e'.number.val : Int) = n)) :
    mapFind n ((pre ++ e :: post).foldl (fun s e => update e s) st).buttons =
      some (decide (e.value ≠ 0)) := by
  rw [List.foldl_append, List.foldl_cons, foldl_buttons_untouched post _ n h,
    update_buttons_find, if_pos ⟨hb, hn⟩]

theorem foldl_axes_last (pre post : List js_event) (e : js_event) (st : State) (n : Int)
    (hb : isAxis e) (hn : (e.number.val : Int) = n)
    (h : ∀ e' ∈ post, ¬ (isAxis e' ∧ (e'.number.val : Int) = n)) :
    mapFind n ((pre ++ e :: post).foldl (fun s e => update e s) st).axes = some e.value := by
  rw [List.foldl_append, List.foldl_cons, foldl_axes_untouched post _ n h,
    update_axes_find, if_pos ⟨hb, hn⟩]

/-! ## Lemmas on the output -/

theorem emit_append (a b : List Out) : emit (a ++ b) = emit a ++ emit b := by
  induction a with
  | nil => simp [emit]
  | cons o os ih => simp [emit, ih, String.append_assoc]

theorem emit_of_mem (o : Out) (l : List Out) (h : o ∈ l) :
    ∃ pre post, emit l = pre ++ o.text ++ post := by
  obtain ⟨s, t, rfl⟩ := List.append_of_mem h
  exact ⟨emit s, emit t, by rw [emit_append, emit, String.append_assoc]⟩

theorem buttonLine_text_off (n : Int) :
    (Out.buttonLine n false).text = "Button #" ++ toString n ++ ": OFF\x1b[K\n" := by
  have h : ": " ++ ("OFF" ++ "\x1b[K\n") = ": OFF\x1b[K\n" := by decide
  simp only [Out.text, Bool.false_eq_true, if_false, String.append_assoc, h]

theorem buttonLine_text_on (n : Int) :
    (Out.buttonLine n true).text = "Button #" ++ toString n ++ ": ON\x1b[K\n" := by
  have h : ": " ++ ("ON" ++ "\x1b[K\n") = ": ON\x1b[K\n" := by decide
  simp only [Out.text, if_true, String.append_assoc, h]

theorem buttonLine_mem_drawLines (st : State) (n : Int) (b : Bool) :
    Out.buttonLine n b ∈ drawLines st ↔ (n, b) ∈ st.buttons := by
  simp [drawLines]

theorem axisLine_mem_drawLines (st : State) (n v : Int) :
    Out.axisLine n v ∈ drawLines st ↔ (n, v) ∈ st.axes := by
  simp [drawLines]

theorem cursor_not_mem_drawLines (st : State) (y x : Int) :
    Out.cursor y x ∉ drawLines st := by
  simp [drawLines]

theorem render_out_present (axis : Int) (st : State) (a b : Int)
    (ha : mapFind axis st.axes = some a) (hb : mapFind (axis + 1) st.axes = some b) :
    (render axis st).2 = drawLines st ++ [Out.cursor (cursorY b) (cursorX a), Out.flush] := by
  have h : mapCount axis st.axes ≠ 0 ∧ mapCount (axis + 1) st.axes ≠ 0 := by
    simp [mapCount_ne_zero_iff, ha, hb]
  unfold render
  rw [if_pos h]
  simp [mapAt_of_find _ _ _ ha, mapAt_of_find _ _ _ hb]

theorem render_out_absent (axis : Int) (st : State)
    (h : ¬ ((mapFind axis st.axes).isSome ∧ (mapFind (axis + 1) st.axes).isSome)) :
    (render axis st).2 = drawLines st := by
  have h' : ¬ (mapCount axis st.axes ≠ 0 ∧ mapCount (axis + 1) st.axes ≠ 0) := by
    simpa [mapCount_ne_zero_iff] using h
  unfold render
  rw [if_neg h']

theorem buttonLine_mem_render (axis : Int) (st : State) (n : Int) (b : Bool) :
    Out.buttonLine n b ∈ (render axis st).2 ↔ (n, b) ∈ st.buttons := by
  rw [← buttonLine_mem_drawLines]
  unfold render
  split_ifs <;> simp

/-! ## The cursor arithmetic -/

theorem wrap32_of_range (z : Int) (h1 : -2147483648 ≤ z) (h2 : z ≤ 2147483647) :
    wrap32 z = z := by
  unfold wrap32
  omega

theorem tdiv_32767_range (z : Int) (c : Int) (hc : 0 ≤ c) (h1 : -(32767 * c) - 32766 ≤ z)
    (h2 : z ≤ 32767 * c + 32766) :
    -c ≤ Int.tdiv z 32767 ∧ Int.tdiv z 32767 ≤ c := by
  rcases le_or_lt 0 z with hz | hz
  · rw [Int.tdiv_eq_ediv hz (by decide)]
    omega
  · have hneg : Int.tdiv z 32767 = -((-z) / 32767) := by
      have h := Int.neg_tdiv (-z) 32767
      rw [neg_neg] at h
      rw [h, Int.tdiv_eq_ediv (by omega) (by decide)]
    rw [hneg]
    omega

theorem cursorX_eq (a : Int) (h : IsS16 a) : cursorX a = Int.tdiv (a * 20) 32767 + 21 := by
  obtain ⟨h1, h2⟩ := h
  have hq := tdiv_32767_range (a * 20) 20 (by decide) (by omega) (by omega)
  unfold cursorX add32 div32 mul32
  rw [wrap32_of_range (a * 20) (by omega) (by omega),
    wrap32_of_range (Int.tdiv (a * 20) 32767) (by omega) (by omega),
    wrap32_of_range (Int.tdiv (a * 20) 32767 + 20) (by omega) (by omega),
    wrap32_of_range (Int.tdiv (a * 20) 32767 + 20 + 1) (by omega) (by omega)]
  omega

theorem cursorY_eq (b : Int) (h : IsS16 b) : cursorY b = Int.tdiv (b * 10) 32767 + 11 := by
  obtain ⟨h1, h2⟩ := h
  have hq := tdiv_32767_range (b * 10) 10 (by decide) (by omega) (by omega)
  unfold cursorY add32 div32 mul32
  rw [wrap32_of_range (b * 10) (by omega) (by omega),
    wrap32_of_range (Int.tdiv (b * 10) 32767) (by omega) (by omega),
    wrap32_of_range (Int.tdiv (b * 10) 32767 + 10) (by omega) (by omega),
    wrap32_of_range (Int.tdiv (b * 10) 32767 + 10 + 1) (by omega) (by omega)]
  omega

/-! ## Lemmas on the frame of an update and on the init flag -/

theorem mem_mapSet_of_ne {α : Type} (k : Int) (v : α) (m : List (Int × α)) (p : Int × α)
    (hp : p.1 ≠ k) (h : p ∈ m) : p ∈ mapSet k v m := by
  induction m with
  | nil => simp at h
  | cons q t ih =>
    obtain ⟨k', v'⟩ := q
    simp only [mapSet]
    split_ifs with h1 h2
    · exact List.mem_cons_of_mem _ h
    · rcases List.mem_cons.mp h with h3 | h3
      · subst h3
        exact absurd h2.symm hp
      · exact List.mem_cons_of_mem _ h3
    · rcases List.mem_cons.mp h with h3 | h3
      · exact h3 ▸ List.mem_cons_self _ _
      · exact List.mem_cons_of_mem _ (ih h3)

theorem mem_mapSet_iff_of_ne {α : Type} (k : Int) (v : α) (m : List (Int × α)) (p : Int × α)
    (hp : p.1 ≠ k) : p ∈ mapSet k v m ↔ p ∈ m := by
  refine ⟨fun h => ?_, mem_mapSet_of_ne k v m p hp⟩
  rcases mem_mapSet k v m p h with h1 | h1
  · subst h1
    exact absurd rfl hp
  · exact h1

set_option maxRecDepth 100000 in
theorem maskInit_setInit_clearInit :
    ∀ t : Fin 256, maskInit (setInit t) = maskInit (clearInit t) ∧
      maskInit t = maskInit (clearInit t) := by
  decide

set_option maxRecDepth 100000 in
theorem setInit_clearInit_bits :
    ∀ t : Fin 256, (setInit t).val = t.val % 128 + 128 ∧ (clearInit t).val = t.val % 128 := by
  decide

theorem update_congr_mask (e1 e2 : js_event) (st : State)
    (ht : maskInit e1.type = maskInit e2.type) (hn : e1.number = e2.number)
    (hv : e1.value = e2.value) : update e1 st = update e2 st := by
  unfold update
  rw [ht, hn, hv]

/-! ## Lemmas on the run of the loop -/

theorem loop_eq_fullRecords (axis : Int) (input : List ReadResult) (st : State) :
    loop axis input st =
      ⟨(fullRecords input).foldl (fun s e => update e s) st,
        renders axis (fullRecords input) st,
        (fullRecords input).length + 1,
        afterStop input⟩ := by
  induction input generalizing st with
  | nil => rfl
  | cons r rest ih =>
    by_cases h : r.count = sizeofEv
    · have hf : isFull r = true := by simp [isFull, h]
      have hr : r = fullRead r.ev := by
        cases r
        simp only [fullRead, ReadResult.mk.injEq, and_true]
        exact h
      have hp : fullRecords (r :: rest) = r.ev :: fullRecords rest := by
        simp [fullRecords, List.takeWhile_cons, hf]
      have ha : afterStop (r :: rest) = afterStop rest := by
        simp [afterStop, List.dropWhile_cons, hf]
      rw [hp, ha]
      conv_lhs => rw [hr]
      rw [loop_cons_full, ih, renders_cons]
      simp [Nat.add_assoc, Nat.add_comm]
    · have hf : isFull r = false := by simp [isFull, h]
      have hp : fullRecords (r :: rest) = [] := by
        simp [fullRecords, List.takeWhile_cons, hf]
      have ha : afterStop (r :: rest) = rest := by
        simp [afterStop, List.dropWhile_cons, hf]
      rw [hp, ha, loop_cons_short axis r rest st h]
      rfl

theorem fullRecords_append_short (evs : List js_event) (r : ReadResult)
    (rest : List ReadResult) (h : r.count ≠ sizeofEv) :
    fullRecords (evs.map fullRead ++ r :: rest) = evs ∧
      afterStop (evs.map fullRead ++ r :: rest) = rest := by
  have hf : isFull r = false := by simp [isFull, h]
  induction evs with
  | nil => simp [fullRecords, afterStop, List.takeWhile_cons, List.dropWhile_cons, hf]
  | cons e es ih =>
    have he : isFull (fullRead e) = true := by simp [isFull, fullRead]
    constructor
    · have h1 := ih.1
      simp only [fullRecords] at h1 ⊢
      simp only [List.map_cons, List.cons_append, List.takeWhile_cons, he, if_true]
      rw [h1]
      rfl
    · have h2 := ih.2
      simp only [afterStop] at h2 ⊢
      simp only [List.map_cons, List.cons_append, List.dropWhile_cons, he, if_true]
      exact h2

theorem fullRecords_map_fullRead (evs : List js_event) :
    fullRecords (evs.map fullRead) = evs ∧ afterStop (evs.map fullRead) = [] := by
  induction evs with
  | nil => simp [fullRecords, afterStop]
  | cons e es ih =>
    have he : isFull (fullRead e) = true := by simp [isFull, fullRead]
    constructor
    · have h1 := ih.1
      simp only [fullRecords] at h1 ⊢
      simp only [List.map_cons, List.takeWhile_cons, he, if_true]
      rw [h1]
      rfl
    · have h2 := ih.2
      simp only [afterStop] at h2 ⊢
      simp only [List.map_cons, List.dropWhile_cons, he, if_true]
      exact h2

theorem renders_eq_flatMap (axis : Int) (evs : List js_event) (st : State) :
    renders axis evs st =
      (List.range evs.length).flatMap
        (fun k => (render axis ((evs.take (k + 1)).foldl (fun s e => update e s) st)).2) := by
  induction evs generalizing st with
  | nil => simp [renders]
  | cons e es ih =>
    rw [renders_cons, ih, List.length_cons, List.range_succ_eq_map, List.flatMap_cons,
      List.flatMap_map]
    simp [List.take_succ_cons]

theorem count_home_render (axis : Int) (st : State) :
    List.count Out.home (render axis st).2 = 1 := by
  have hb : List.count Out.home (st.buttons.map (fun btn => Out.buttonLine btn.1 btn.2)) = 0 := by
    rw [List.count_eq_zero]; simp
  have ha : List.count Out.home (st.axes.map (fun ax => Out.axisLine ax.1 ax.2)) = 0 := by
    rw [List.count_eq_zero]; simp
  have hd : List.count Out.home (drawLines st) = 1 := by
    rw [drawLines, List.count_cons_self, List.count_append, hb, ha]
  unfold render
  split_ifs
  · have ht : ∀ y x : Int, List.count Out.home [Out.cursor y x, Out.flush] = 0 := by
      intro y x
      rw [List.count_eq_zero]; simp
    rw [List.count_append, hd, ht]
  · exact hd

theorem count_home_renders (axis : Int) (evs : List js_event) (st : State) :
    List.count Out.home (renders axis evs st) = evs.length := by
  induction evs generalizing st with
  | nil => simp [renders]
  | cons e es ih =>
    rw [renders_cons, List.count_append, count_home_render, ih, List.length_cons]
    omega

/-! ## The claims -/

/-- C1. Last write wins per id. The run of the loop on any sequence of full
records passes, after its first `k` records, through the state
`stateAfter (evs.take k)`; in that state `buttons` has the key `n` exactly when
one of these records is a BUTTON record with number `n`, and it then holds
`value != 0` of the last such record; `axes` has the key `n` exactly when one of
them is an AXIS record with number `n`, and it then holds the value of the last
such record. -/
theorem state_last_write_wins (axis : Int) (evs : List js_event) (k : Nat) (n : Int) :
    (∀ rest, loop axis (evs.map fullRead ++ rest) State.init =
      ⟨(loop axis ((evs.drop k).map fullRead ++ rest) (stateAfter (evs.take k))).state,
        renders axis (evs.take k) State.init ++
          (loop axis ((evs.drop k).map fullRead ++ rest) (stateAfter (evs.take k))).out,
        (loop axis ((evs.drop k).map fullRead ++ rest) (stateAfter (evs.take k))).reads
          + (evs.take k).length,
        (loop axis ((evs.drop k).map fullRead ++ rest) (stateAfter (evs.take k))).unread⟩) ∧
    (loop axis ((evs.take k).map fullRead) State.init).state = stateAfter (evs.take k) ∧
    (n ∈ keys (stateAfter (evs.take k)).buttons ↔
      ∃ e ∈ evs.take k, isButton e ∧ (e.number.val : Int) = n) ∧
    (∀ pre e post, evs.take k = pre ++ e :: post →
      isButton e → (e.number.val : Int) = n →
      (∀ e' ∈ post, ¬ (isButton e' ∧ (e'.number.val : Int) = n)) →
      mapFind n (stateAfter (evs.take k)).buttons = some (decide (e.value ≠ 0))) ∧
    (n ∈ keys (stateAfter (evs.take k)).axes ↔
      ∃ e ∈ evs.take k, isAxis e ∧ (e.number.val : Int) = n) ∧
    (∀ pre e post, evs.take k = pre ++ e :: post →
      isAxis e → (e.number.val : Int) = n →
      (∀ e' ∈ post, ¬ (isAxis e' ∧ (e'.number.val : Int) = n)) →
      mapFind n (stateAfter (evs.take k)).axes = some e.value) := by
  refine ⟨?_, loop_full_state axis _ _, ?_, ?_, ?_, ?_⟩
  · intro rest
    have h := loop_full_append axis (evs.take k) ((evs.drop k).map fullRead ++ rest) State.init
    rw [← List.append_assoc, ← List.map_append, List.take_append_drop] at h
    exact h
  · rw [← mapFind_isSome_iff, stateAfter, foldl_buttons_isSome]
    simp [State.init, mapFind]
  · intro pre e post hsplit hb hn hpost
    rw [stateAfter, hsplit]
    exact foldl_buttons_last pre post e _ n hb hn hpost
  · rw [← mapFind_isSome_iff, stateAfter, foldl_axes_isSome]
    simp [State.init, mapFind]
  · intro pre e post hsplit hb hn hpost
    rw [stateAfter, hsplit]
    exact foldl_axes_last pre post e _ n hb hn hpost


/-- C2. A BUTTON record with number `n` and value `v` leaves `buttons[n]` false
exactly when `v = 0` and true for every other `v`, negative ones included; the
redraw that follows makes the output call for "Button #n: OFF" when `v = 0` and
for "Button #n: ON" otherwise, and its text holds that line. From a
well-formed map no other line for button `n` is printed. -/
theorem button_record_on_off (axis : Int) (st : State) (ev : js_event) (hb : isButton ev) :
    mapFind (ev.number.val : Int) (iteration axis ev st).1.buttons
      = some (decide (ev.value ≠ 0)) ∧
    (mapFind (ev.number.val : Int) (iteration axis ev st).1.buttons = some false
      ↔ ev.value = 0) ∧
    (mapFind (ev.number.val : Int) (iteration axis ev st).1.buttons = some true
      ↔ ev.value ≠ 0) ∧
    (ev.value = 0 →
      Out.buttonLine (ev.number.val : Int) false ∈ (iteration axis ev st).2 ∧
      ∃ pre post, emit (iteration axis ev st).2 =
        pre ++ ("Button #" ++ toString (ev.number.val : Int) ++ ": OFF\x1b[K\n") ++ post) ∧
    (ev.value ≠ 0 →
      Out.buttonLine (ev.number.val : Int) true ∈ (iteration axis ev st).2 ∧
      ∃ pre post, emit (iteration axis ev st).2 =
        pre ++ ("Button #" ++ toString (ev.number.val : Int) ++ ": ON\x1b[K\n") ++ post) ∧
    (st.WF → ∀ b, Out.buttonLine (ev.number.val : Int) b ∈ (iteration axis ev st).2 →
      b = decide (ev.value ≠ 0)) := by
  have hfind : mapFind (ev.number.val : Int) (iteration axis ev st).1.buttons
      = some (decide (ev.value ≠ 0)) := by
    rw [iteration_state, update_buttons_find, if_pos ⟨hb, rfl⟩]
  have hmem : Out.buttonLine (ev.number.val : Int) (decide (ev.value ≠ 0))
      ∈ (iteration axis ev st).2 := by
    rw [iteration_out, buttonLine_mem_render]
    rw [iteration_state] at hfind
    exact mapFind_some_mem _ _ _ hfind
  refine ⟨hfind, ?_, ?_, ?_, ?_, ?_⟩
  · rw [hfind]; simp
  · rw [hfind]; simp
  · intro hv
    have hd : decide (ev.value ≠ 0) = false := by simp [hv]
    rw [hd] at hmem
    refine ⟨hmem, ?_⟩
    rw [← buttonLine_text_off]
    exact emit_of_mem _ _ hmem
  · intro hv
    have hd : decide (ev.value ≠ 0) = true := by simp [hv]
    rw [hd] at hmem
    refine ⟨hmem, ?_⟩
    rw [← buttonLine_text_on]
    exact emit_of_mem _ _ hmem
  · intro hwf b hb'
    rw [iteration_out, buttonLine_mem_render] at hb'
    have h1 := mem_mapFind_of_ascending _ _ _ (update_WF ev st hwf).1 hb'
    rw [iteration_state] at hfind
    rw [hfind] at h1
    exact (Option.some.inj h1).symm

/-- C2, at a concrete input: a BUTTON record with the init flag, number 3 and the
negative value -5, on empty maps. -/
theorem button_record_on_off_witness :
    isButton ⟨0, -5, 0x81, 3⟩ ∧
    mapFind 3 (iteration 0 ⟨0, -5, 0x81, 3⟩ State.init).1.buttons = some true ∧
    emit (iteration 0 ⟨0, -5, 0x81, 3⟩ State.init).2 = "\x1b[HButton #3: ON\x1b[K\n" :=
  ⟨by decide, (button_record_on_off 0 State.init ⟨0, -5, 0x81, 3⟩ (by decide)).1, by decide⟩


/-- C3. When `axes[axis] = a` and `axes[axis+1] = b` exist, with `a` and `b`
signed 16-bit values, the redraw ends with the output call for ESC[y;xH, row
first, where `x = a*20 quot 32767 + 21` and `y = b*10 quot 32767 + 11` and quot
truncates toward zero; `a = 0, b = 0` gives `(21, 11)`, `a = 32767,
b = -32767` gives `(41, 1)`, and `a = -1` gives `x = 21` where floor
division would give 20. -/
theorem cursor_position (axis : Int) (st : State) (a b : Int)
    (ha : mapFind axis st.axes = some a) (hb : mapFind (axis + 1) st.axes = some b)
    (hra : IsS16 a) (hrb : IsS16 b) :
    (render axis st).2 = drawLines st ++
      [Out.cursor (Int.tdiv (b * 10) 32767 + 11) (Int.tdiv (a * 20) 32767 + 21), Out.flush] ∧
    (∃ pre, emit (render axis st).2 = pre ++
      ("\x1b[" ++ toString (Int.tdiv (b * 10) 32767 + 11) ++ ";" ++
        toString (Int.tdiv (a * 20) 32767 + 21) ++ "H")) ∧
    (cursorX 0 = 21 ∧ cursorY 0 = 11) ∧
    (cursorX 32767 = 41 ∧ cursorY (-32767) = 1) ∧
    (cursorX (-1) = 21 ∧ (-1 * 20 : Int) / 32767 + 21 = 20) := by
  have hout := render_out_present axis st a b ha hb
  rw [cursorX_eq a hra, cursorY_eq b hrb] at hout
  refine ⟨hout, ⟨emit (drawLines st), ?_⟩, by decide, by decide, by decide⟩
  rw [hout, emit_append]
  simp [emit, Out.text]

/-- C3, at a concrete input: both axes at rest, and the first at its maximum with
the second at its minimum. -/
theorem cursor_position_witness :
    (render 0 ⟨[], [(0, 0), (1, 0)]⟩).2 =
      [Out.home, Out.axisLine 0 0, Out.axisLine 1 0, Out.cursor 11 21, Out.flush] ∧
    emit (render 0 ⟨[], [(0, 32767), (1, -32767)]⟩).2 =
      "\x1b[HAxis #0: 32767\x1b[K\nAxis #1: -32767\x1b[K\n\x1b[1;41H" :=
  ⟨(cursor_position 0 ⟨[], [(0, 0), (1, 0)]⟩ 0 0 (by decide) (by decide)
      (by decide) (by decide)).1, by decide⟩

/-- C4. A redraw makes the output call for a cursor position exactly when both
`axis` and `axis + 1` are keys of `axes`; otherwise its output is the home
sequence followed by the button lines and the axis lines and nothing else. The
lines themselves never hold a cursor position or a flush. -/
theorem cursor_emitted_iff (axis : Int) (st : State) :
    ((∃ y x, Out.cursor y x ∈ (render axis st).2) ↔
      (axis ∈ keys st.axes ∧ axis + 1 ∈ keys st.axes)) ∧
    (Out.flush ∈ (render axis st).2 ↔
      (axis ∈ keys st.axes ∧ axis + 1 ∈ keys st.axes)) ∧
    (¬ (axis ∈ keys st.axes ∧ axis + 1 ∈ keys st.axes) →
      (render axis st).2 = drawLines st ∧
      emit (render axis st).2 =
        "\x1b[H" ++ (emit (st.buttons.map (fun btn => Out.buttonLine btn.1 btn.2)) ++
          emit (st.axes.map (fun ax => Out.axisLine ax.1 ax.2)))) ∧
    (∀ y x, Out.cursor y x ∉ drawLines st) ∧ Out.flush ∉ drawLines st := by
  have hflush : Out.flush ∉ drawLines st := by simp [drawLines]
  by_cases h : (mapFind axis st.axes).isSome ∧ (mapFind (axis + 1) st.axes).isSome
  · have hk : axis ∈ keys st.axes ∧ axis + 1 ∈ keys st.axes := by
      rw [← mapFind_isSome_iff, ← mapFind_isSome_iff]; exact h
    obtain ⟨a, ha⟩ := Option.isSome_iff_exists.mp h.1
    obtain ⟨b, hb⟩ := Option.isSome_iff_exists.mp h.2
    have hout := render_out_present axis st a b ha hb
    refine ⟨?_, ?_, fun hn => absurd hk hn, cursor_not_mem_drawLines st, hflush⟩
    · refine ⟨fun _ => hk, fun _ => ⟨cursorY b, cursorX a, ?_⟩⟩
      rw [hout]; simp
    · refine ⟨fun _ => hk, fun _ => ?_⟩
      rw [hout]; simp
  · have hk : ¬ (axis ∈ keys st.axes ∧ axis + 1 ∈ keys st.axes) := by
      rw [← mapFind_isSome_iff, ← mapFind_isSome_iff]; exact h
    have hout := render_out_absent axis st h
    refine ⟨?_, ?_, fun _ => ⟨hout, ?_⟩, cursor_not_mem_drawLines st, hflush⟩
    · refine ⟨fun hc => ?_, fun hc => absurd hc hk⟩
      obtain ⟨y, x, hyx⟩ := hc
      rw [hout] at hyx
      exact absurd hyx (cursor_not_mem_drawLines st y x)
    · refine ⟨fun hc => ?_, fun hc => absurd hc hk⟩
      rw [hout] at hc
      exact absurd hc hflush
    · rw [hout, drawLines, emit, emit_append]
      rfl

/-- C5. A full record whose type, once the init flag is masked off, is neither
BUTTON nor AXIS leaves both maps as they were, and the loop still makes one
redraw for it, the redraw of the unchanged state, and goes on to the next read. -/
theorem unknown_type_ignored (axis : Int) (st : State) (ev : js_event)
    (rest : List ReadResult)
    (h1 : maskInit ev.type ≠ JS_EVENT_BUTTON) (h2 : maskInit ev.type ≠ JS_EVENT_AXIS) :
    update ev st = st ∧
    (iteration axis ev st).1 = st ∧
    (iteration axis ev st).2 = (render axis st).2 ∧
    emit (iteration axis ev st).2 = emit (render axis st).2 ∧
    loop axis (fullRead ev :: rest) st =
      ⟨(loop axis rest st).state, (render axis st).2 ++ (loop axis rest st).out,
        (loop axis rest st).reads + 1, (loop axis rest st).unread⟩ := by
  have hu : update ev st = st := by
    unfold update
    rw [if_neg h1, if_neg h2]
  refine ⟨hu, ?_, ?_, ?_, ?_⟩
  · rw [iteration_state, hu]
  · rw [iteration_out, hu]
  · rw [iteration_out, hu]
  · rw [loop_cons_full, hu]

/-- C5, at a concrete input: a record of type 0x03 on a state with one button and
one axis. -/
theorem unknown_type_ignored_witness :
    maskInit (3 : Fin 256) ≠ JS_EVENT_BUTTON ∧ maskInit (3 : Fin 256) ≠ JS_EVENT_AXIS ∧
    update ⟨0, 7, 3, 1⟩ ⟨[(1, true)], [(2, -5)]⟩ = ⟨[(1, true)], [(2, -5)]⟩ :=
  ⟨by decide, by decide,
    (unknown_type_ignored 0 ⟨[(1, true)], [(2, -5)]⟩ ⟨0, 7, 3, 1⟩ [] (by decide) (by decide)).1⟩

/-- C6. One record touches at most one entry of one map: a BUTTON record with
number `n` leaves `axes` as it was and leaves every entry and every lookup of
`buttons` at a key other than `n` as it was; an AXIS record with number `n`
leaves `buttons` as it was and every entry and every lookup of `axes` at a key
other than `n` as it was. -/
theorem update_frame (axis : Int) (st : State) (ev : js_event) :
    (isButton ev →
      (iteration axis ev st).1.axes = st.axes ∧
      (∀ m : Int, m ≠ (ev.number.val : Int) →
        mapFind m (iteration axis ev st).1.buttons = mapFind m st.buttons) ∧
      (∀ p : Int × Bool, p.1 ≠ (ev.number.val : Int) →
        (p ∈ (iteration axis ev st).1.buttons ↔ p ∈ st.buttons))) ∧
    (isAxis ev →
      (iteration axis ev st).1.buttons = st.buttons ∧
      (∀ m : Int, m ≠ (ev.number.val : Int) →
        mapFind m (iteration axis ev st).1.axes = mapFind m st.axes) ∧
      (∀ p : Int × Int, p.1 ≠ (ev.number.val : Int) →
        (p ∈ (iteration axis ev st).1.axes ↔ p ∈ st.axes))) := by
  rw [iteration_state]
  constructor
  · intro hb
    have hu : update ev st =
        { st with buttons := mapSet (ev.number.val : Int) (decide (ev.value ≠ 0)) st.buttons } := by
      have hb' : maskInit ev.type = JS_EVENT_BUTTON := hb
      unfold update
      rw [if_pos hb']
    rw [hu]
    exact ⟨rfl, fun m hm => mapFind_mapSet_ne _ _ _ _ hm,
      fun p hp => mem_mapSet_iff_of_ne _ _ _ p hp⟩
  · intro ha
    have hu : update ev st =
        { st with axes := mapSet (ev.number.val : Int) ev.value st.axes } := by
      have ha1 : ¬ maskInit ev.type = JS_EVENT_BUTTON := ha.1
      have ha2 : maskInit ev.type = JS_EVENT_AXIS := ha.2
      unfold update
      rw [if_neg ha1, if_pos ha2]
    rw [hu]
    exact ⟨rfl, fun m hm => mapFind_mapSet_ne _ _ _ _ hm,
      fun p hp => mem_mapSet_iff_of_ne _ _ _ p hp⟩

/-- C7. The init flag has no effect: a record processed with bit 0x80 set in its
type gives the same maps and the same output as with that bit cleared, and so
does the record as it came. Setting and clearing change that bit only. -/
theorem init_flag_irrelevant (axis : Int) (st : State) (r : js_event) :
    iteration axis { r with type := setInit r.type } st =
      iteration axis { r with type := clearInit r.type } st ∧
    iteration axis r st = iteration axis { r with type := clearInit r.type } st ∧
    emit (iteration axis { r with type := setInit r.type } st).2 =
      emit (iteration axis { r with type := clearInit r.type } st).2 ∧
    (setInit r.type).val = r.type.val % 128 + 128 ∧
    (clearInit r.type).val = r.type.val % 128 := by
  have hm := maskInit_setInit_clearInit r.type
  have h1 : update { r with type := setInit r.type } st =
      update { r with type := clearInit r.type } st :=
    update_congr_mask _ _ st hm.1 rfl rfl
  have h2 : update r st = update { r with type := clearInit r.type } st :=
    update_congr_mask _ _ st hm.2 rfl rfl
  have hb := setInit_clearInit_bits r.type
  refine ⟨?_, ?_, ?_, hb.1, hb.2⟩
  · unfold iteration; rw [h1]
  · unfold iteration; rw [h2]
  · unfold iteration; rw [h1]

/-- C6, at a concrete input: a BUTTON record for button 2 on a state with
buttons 1 and 3 and axis 0 keeps the axes and the other two buttons. -/
theorem update_frame_witness :
    isButton ⟨0, 1, 1, 2⟩ ∧
    (iteration 0 ⟨0, 1, 1, 2⟩ ⟨[(1, true), (3, false)], [(0, 9)]⟩).1.axes = [(0, 9)] ∧
    (iteration 0 ⟨0, 1, 1, 2⟩ ⟨[(1, true), (3, false)], [(0, 9)]⟩).1.buttons =
      [(1, true), (2, true), (3, false)] :=
  ⟨by decide,
    ((update_frame 0 ⟨[(1, true), (3, false)], [(0, 9)]⟩ ⟨0, 1, 1, 2⟩).1 (by decide)).1,
    by decide⟩

/-- C8. The output of a redraw of a state whose maps are in key order is the
home sequence, then one button line per entry of `buttons` in strictly
ascending id order, then one axis line per entry of `axes` in strictly
ascending id order, then either nothing or the cursor position and flush. A
button line reads "Button #id: ON" or "Button #id: OFF", ON exactly for a true
entry, an axis line "Axis #id: value" in signed decimal, each followed by
ESC[K and a newline. There are `|buttons| + |axes|` lines, and any record
keeps the maps in key order. -/
theorem render_format (axis : Int) (st : State) (h : st.WF) :
    (∃ tail, (render axis st).2 =
        Out.home :: (st.buttons.map (fun p => Out.buttonLine p.1 p.2) ++
          st.axes.map (fun p => Out.axisLine p.1 p.2)) ++ tail ∧
      (tail = [] ∨ ∃ y x, tail = [Out.cursor y x, Out.flush]) ∧
      emit (render axis st).2 =
        "\x1b[H" ++ (emit (st.buttons.map (fun p => Out.buttonLine p.1 p.2)) ++
          (emit (st.axes.map (fun p => Out.axisLine p.1 p.2)) ++ emit tail))) ∧
    (keys st.buttons).Pairwise (fun i j => i < j) ∧
    (keys st.axes).Pairwise (fun i j => i < j) ∧
    (∀ id : Int, (Out.buttonLine id true).text = "Button #" ++ toString id ++ ": ON\x1b[K\n" ∧
      (Out.buttonLine id false).text = "Button #" ++ toString id ++ ": OFF\x1b[K\n") ∧
    (∀ id v : Int,
      (Out.axisLine id v).text = "Axis #" ++ toString id ++ ": " ++ toString v ++ "\x1b[K\n") ∧
    (toString (-32768 : Int) = "-32768" ∧ toString (255 : Int) = "255") ∧
    ((st.buttons.map (fun p => Out.buttonLine p.1 p.2) ++
        st.axes.map (fun p => Out.axisLine p.1 p.2)).length =
      st.buttons.length + st.axes.length) ∧
    (∀ ev, (update ev st).WF) := by
  refine ⟨?_, ?_, ?_, fun id => ⟨buttonLine_text_on id, buttonLine_text_off id⟩,
    fun id v => rfl, ⟨by decide, by decide⟩, by simp, fun ev => update_WF ev st h⟩
  · by_cases hc : (mapFind axis st.axes).isSome ∧ (mapFind (axis + 1) st.axes).isSome
    · obtain ⟨a, ha⟩ := Option.isSome_iff_exists.mp hc.1
      obtain ⟨b, hb⟩ := Option.isSome_iff_exists.mp hc.2
      refine ⟨[Out.cursor (cursorY b) (cursorX a), Out.flush], ?_, Or.inr ⟨_, _, rfl⟩, ?_⟩
      · rw [render_out_present axis st a b ha hb]; rfl
      · rw [render_out_present axis st a b ha hb, drawLines, emit_append, emit, emit_append,
          String.append_assoc, String.append_assoc]
        rfl
    · refine ⟨[], ?_, Or.inl rfl, ?_⟩
      · rw [render_out_absent axis st hc, List.append_nil]; rfl
      · rw [render_out_absent axis st hc, drawLines]
        simp only [emit, emit_append, String.append_empty]
        rfl
  · exact List.pairwise_map.mpr h.1
  · exact List.pairwise_map.mpr h.2

/-- C8, at a concrete input: two buttons and two axes, entered out of order. -/
theorem render_format_witness :
    State.WF (update ⟨0, 0, 1, 1⟩ (update ⟨0, 1, 1, 3⟩ State.init)) ∧
    (keys (update ⟨0, 0, 1, 1⟩ (update ⟨0, 1, 1, 3⟩ State.init)).buttons).Pairwise
      (fun i j => i < j) ∧
    emit (render 5 (update ⟨0, -7, 2, 0⟩ (update ⟨0, 0, 1, 1⟩ (update ⟨0, 1, 1, 3⟩ State.init)))).2 =
      "\x1b[HButton #1: OFF\x1b[K\nButton #3: ON\x1b[K\nAxis #0: -7\x1b[K\n" :=
  ⟨by decide,
    (render_format 5 (update ⟨0, 0, 1, 1⟩ (update ⟨0, 1, 1, 3⟩ State.init)) (by decide)).2.1,
    by decide⟩

/-- C9. The loop processes exactly the longest prefix of reads that return a full
record. At the first read with another count (a short record, 0, or -1) it
stops: the maps are those after the full records before it, the output is their
redraws, one more read was made than records processed, all later input is left
unread, and `main` returns 0 with nothing on standard error. -/
theorem loop_stops_at_first_short_read (axis : Int) (input : List ReadResult) (st : State) :
    loop axis input st =
      ⟨(fullRecords input).foldl (fun s e => update e s) st,
        renders axis (fullRecords input) st,
        (fullRecords input).length + 1,
        afterStop input⟩ ∧
    (∀ (evs : List js_event) (r : ReadResult) (rest : List ReadResult),
      r.count ≠ sizeofEv →
      loop axis (evs.map fullRead ++ r :: rest) st =
        ⟨evs.foldl (fun s e => update e s) st, renders axis evs st, evs.length + 1, rest⟩ ∧
      (loop axis (evs.map fullRead ++ r :: rest) st).state =
        (loop axis (evs.map fullRead) st).state ∧
      (loop axis (evs.map fullRead ++ r :: rest) st).out =
        (loop axis (evs.map fullRead) st).out ∧
      mainLoop axis (evs.map fullRead ++ r :: rest) =
        ⟨0, renders axis evs State.init, []⟩) ∧
    (mainLoop axis input).exitCode = 0 ∧
    (mainLoop axis input).stderr = [] ∧
    (mainLoop axis input).stdout = renders axis (fullRecords input) State.init := by
  refine ⟨loop_eq_fullRecords axis input st, ?_, rfl, rfl, ?_⟩
  · intro evs r rest hr
    have hp := fullRecords_append_short evs r rest hr
    have hq := fullRecords_map_fullRead evs
    refine ⟨?_, ?_, ?_, ?_⟩
    · rw [loop_eq_fullRecords, hp.1, hp.2]
    · rw [loop_eq_fullRecords, loop_eq_fullRecords, hp.1, hq.1]
    · rw [loop_eq_fullRecords, loop_eq_fullRecords, hp.1, hq.1]
    · rw [mainLoop, loop_eq_fullRecords, hp.1]
  · rw [mainLoop, loop_eq_fullRecords]

/-- C9, at a concrete input: a full BUTTON record, a read of 3 bytes, then a full
record that is never read. -/
theorem loop_stops_at_first_short_read_witness :
    loop 0 [fullRead ⟨0, 1, 1, 4⟩, ⟨3, ⟨0, 1, 1, 9⟩⟩, fullRead ⟨0, 1, 1, 5⟩] State.init =
      ⟨⟨[(4, true)], []⟩, [Out.home, Out.buttonLine 4 true], 2, [fullRead ⟨0, 1, 1, 5⟩]⟩ :=
  ((loop_stops_at_first_short_read 0 [] State.init).2.1
    [⟨0, 1, 1, 4⟩] ⟨3, ⟨0, 1, 1, 9⟩⟩ [fullRead ⟨0, 1, 1, 5⟩] (by decide)).1

/-- C10. For `n` full records followed by the end of the stream (a read returning
0, or the end of the input) the output is the concatenation of exactly `n`
redraws, the `k`-th being the redraw of the state after records `1..k`; each
redraw starts with its own home sequence, so the output holds `n` of them. -/
theorem one_render_per_record (axis : Int) (evs : List js_event) (e0 : js_event) :
    (mainLoop axis (evs.map fullRead ++ [⟨0, e0⟩])).stdout =
      (List.range evs.length).flatMap
        (fun k => (render axis (stateAfter (evs.take (k + 1)))).2) ∧
    (mainLoop axis (evs.map fullRead)).stdout =
      (List.range evs.length).flatMap
        (fun k => (render axis (stateAfter (evs.take (k + 1)))).2) ∧
    List.count Out.home (mainLoop axis (evs.map fullRead ++ [⟨0, e0⟩])).stdout = evs.length ∧
    (loop axis (evs.map fullRead ++ [⟨0, e0⟩]) State.init).reads = evs.length + 1 ∧
    (loop axis (evs.map fullRead ++ [⟨0, e0⟩]) State.init).state = stateAfter evs := by
  have h0 : (⟨0, e0⟩ : ReadResult).count ≠ sizeofEv := by
    show (0 : Int) ≠ sizeofEv
    decide
  have hp := fullRecords_append_short evs ⟨0, e0⟩ [] h0
  have hq := fullRecords_map_fullRead evs
  refine ⟨?_, ?_, ?_, ?_, ?_⟩
  · rw [mainLoop, loop_eq_fullRecords, hp.1, renders_eq_flatMap]; rfl
  · rw [mainLoop, loop_eq_fullRecords, hq.1, renders_eq_flatMap]; rfl
  · rw [mainLoop, loop_eq_fullRecords, hp.1]; exact count_home_renders axis evs _
  · rw [loop_eq_fullRecords, hp.1]
  · rw [loop_eq_fullRecords, hp.1]; rfl

/-! ## Arguments, exit code and classification -/

theorem atol_of_range (s : String) (h1 : LONG_MIN ≤ decimalValue s)
    (h2 : decimalValue s ≤ LONG_MAX) : atol s = decimalValue s := by
  unfold atol
  rw [min_eq_right h2, max_eq_right h1]

theorem selectedAxis_pair (p a : String) : selectedAxis [p, a] = wrap32 (atol a) := by
  simp [selectedAxis]

theorem selectedAxis_of_length_ne (args : List String) (h : args.length ≠ 2) :
    selectedAxis args = 0 := by
  unfold selectedAxis
  rw [if_neg]
  omega

theorem main_no_args (prog : String) (fs : String → Except String (List ReadResult)) :
    main prog [] fs = ⟨1, [MainOut.usage prog], [], [], 0⟩ := rfl

theorem main_open_fails (prog p msg : String) (rest : List String)
    (fs : String → Except String (List ReadResult)) (h : fs p = .error msg) :
    main prog (p :: rest) fs = ⟨1, [], [perror p msg], [p], 0⟩ := by
  simp only [main, h]

theorem main_open_ok (prog p : String) (rest : List String) (input : List ReadResult)
    (fs : String → Except String (List ReadResult)) (h : fs p = .ok input) :
    main prog (p :: rest) fs =
      ⟨0, (renders (selectedAxis (p :: rest)) (fullRecords input) State.init).map MainOut.draw,
        [], [p], (fullRecords input).length + 1⟩ := by
  simp only [main, h, mainLoop, loop_eq_fullRecords]

set_option maxRecDepth 100000 in
theorem maskInit_cases :
    ∀ t : Fin 256, maskInit t = t.val % 128 ∧
      (maskInit t = JS_EVENT_BUTTON ↔ t = 0x01 ∨ t = 0x81) ∧
      (maskInit t = JS_EVENT_AXIS ↔ t = 0x02 ∨ t = 0x82) := by
  decide

theorem loop_retime (axis : Int) (g : js_event → Int) (input : List ReadResult) (st : State) :
    (loop axis (input.map (retime g)) st).state = (loop axis input st).state ∧
    (loop axis (input.map (retime g)) st).out = (loop axis input st).out ∧
    (loop axis (input.map (retime g)) st).reads = (loop axis input st).reads := by
  induction input generalizing st with
  | nil => exact ⟨rfl, rfl, rfl⟩
  | cons r rest ih =>
    have hc : (retime g r).count = r.count := rfl
    have hi : iteration axis (retime g r).ev st = iteration axis r.ev st := rfl
    by_cases h : r.count = sizeofEv
    · have h' : (retime g r).count = sizeofEv := hc.trans h
      simp only [List.map_cons, loop, if_pos h, if_pos h', hi]
      have := ih (iteration axis r.ev st).1
      exact ⟨this.1, by rw [this.2.1], by rw [this.2.2]⟩
    · have h' : ¬ (retime g r).count = sizeofEv := fun e => h (hc.symm.trans e)
      simp only [List.map_cons, loop, if_neg h, if_neg h']
      exact ⟨trivial, trivial, trivial⟩

/-- C11 fails as stated, twice. With a third argument after the axis index the
test `argc == 3` fails and `axis` stays 0, though the second argument reads 2.
With two arguments and the index 9223372036854775808, beyond any `long`, `atol`
gives `LONG_MAX` and `axis`, an `int`, is -1. -/
theorem selectedAxis_extra_argument_counterexample :
    (decimalValue "2" = 2 ∧ selectedAxis ["/dev/input/js0", "2", "x"] = 0 ∧
      selectedAxis ["/dev/input/js0", "2", "x"] ≠ decimalValue "2") ∧
    (decimalValue "9223372036854775808" = 9223372036854775808 ∧
      selectedAxis ["/dev/input/js0", "9223372036854775808"] = -1 ∧
      selectedAxis ["/dev/input/js0", "9223372036854775808"] ≠
        decimalValue "9223372036854775808") := by
  decide

/-- C11, amended. With exactly two arguments, the device path and the axis
index, `axis` is what `atol` returns for the second one, stored in an `int`:
it is the base-10 integer value of that argument whenever the value fits 32
bits, negative or large as it may be. With the device path alone, and with
more than two arguments, `axis` is 0. It is the value the loop and its cursor
step run with. -/
theorem selectedAxis_spec (prog : String) (args : List String)
    (fs : String → Except String (List ReadResult)) :
    (∀ p a, args = [p, a] →
      selectedAxis args = wrap32 (atol a) ∧
      (-2147483648 ≤ decimalValue a → decimalValue a ≤ 2147483647 →
        selectedAxis args = decimalValue a)) ∧
    (∀ p, args = [p] → selectedAxis args = 0) ∧
    (∀ p a b rest, args = p :: a :: b :: rest → selectedAxis args = 0) ∧
    (∀ p rest input, args = p :: rest → fs p = .ok input →
      (main prog args fs).stdout =
        (mainLoop (selectedAxis args) input).stdout.map MainOut.draw) ∧
    (-2147483648 ≤ selectedAxis args ∧ selectedAxis args ≤ 2147483647) := by
  refine ⟨?_, ?_, ?_, ?_, ?_⟩
  · intro p a h
    subst h
    refine ⟨selectedAxis_pair p a, fun h1 h2 => ?_⟩
    rw [selectedAxis_pair, atol_of_range a (by unfold LONG_MIN; omega) (by unfold LONG_MAX; omega),
      wrap32_of_range _ h1 h2]
  · intro p h
    subst h
    exact selectedAxis_of_length_ne _ (by simp)
  · intro p a b rest h
    subst h
    exact selectedAxis_of_length_ne _ (by simp)
  · intro p rest input h hfs
    subst h
    simp only [main, hfs]
  · unfold selectedAxis
    split_ifs
    · unfold wrap32
      omega
    · omega

/-- C11 amended, at concrete inputs: an axis index of 4, a negative one, one far
above any axis, the default, and the two ends of the range of `atol`. -/
theorem selectedAxis_spec_witness :
    selectedAxis ["/dev/input/js0", "4"] = 4 ∧
    selectedAxis ["/dev/input/js0", "-5"] = -5 ∧
    selectedAxis ["/dev/input/js0", "100000"] = 100000 ∧
    selectedAxis ["/dev/input/js0"] = 0 ∧
    atol "9223372036854775808" = 9223372036854775807 ∧
    atol "-9223372036854775809" = -9223372036854775808 ∧
    selectedAxis ["/dev/input/js0", "-9223372036854775809"] = 0 :=
  ⟨((selectedAxis_spec "joytest" ["/dev/input/js0", "4"] (fun _ => .ok [])).1
      "/dev/input/js0" "4" rfl).2 (by decide) (by decide),
    by decide, by decide, by decide, by decide, by decide, by decide⟩

/-- C12. `main` returns 1 exactly when the device path is missing or `open` fails
on it. Without a path it prints the usage line on standard output and opens
nothing; when `open` fails it writes the path and the reason on standard
error; in both cases it reads nothing and draws nothing. In every other run it
returns 0 after the first read that is not full. -/
theorem exit_code_one_iff (prog : String) (args : List String)
    (fs : String → Except String (List ReadResult)) :
    ((main prog args fs).exitCode = 1 ↔
      (args = [] ∨ ∃ p rest msg, args = p :: rest ∧ fs p = .error msg)) ∧
    (args = [] →
      main prog args fs = ⟨1, [MainOut.usage prog], [], [], 0⟩ ∧
      (MainOut.usage prog).text = "Usage: " ++ prog ++ " /dev/input/js0 [axis]\n") ∧
    (∀ p rest msg, args = p :: rest → fs p = .error msg →
      main prog args fs = ⟨1, [], [perror p msg], [p], 0⟩ ∧
      (p ≠ "" → perror p msg = p ++ ": " ++ msg ++ "\n")) ∧
    (∀ p rest input, args = p :: rest → fs p = .ok input →
      main prog args fs =
        ⟨0, (renders (selectedAxis args) (fullRecords input) State.init).map MainOut.draw,
          [], [p], (fullRecords input).length + 1⟩) := by
  refine ⟨?_, ?_, ?_, ?_⟩
  · cases args with
    | nil => simp [main_no_args]
    | cons p rest =>
      cases hfs : fs p with
      | error msg =>
        rw [main_open_fails prog p msg rest fs hfs]
        simp [hfs]
      | ok input =>
        rw [main_open_ok prog p rest input fs hfs]
        simp [hfs]
  · intro h
    subst h
    exact ⟨rfl, rfl⟩
  · intro p rest msg h hfs
    subst h
    refine ⟨main_open_fails prog p msg rest fs hfs, fun hp => ?_⟩
    simp [perror, hp]
  · intro p rest input h hfs
    subst h
    exact main_open_ok prog p rest input fs hfs

/-- C12, at concrete inputs: no argument, and a path that does not exist. -/
theorem exit_code_one_iff_witness :
    (main "joytest" [] (fun _ => .ok [])).exitCode = 1 ∧
    main "joytest" ["/dev/input/js9"] (fun _ => .error "No such file or directory") =
      ⟨1, [], ["/dev/input/js9: No such file or directory\n"], ["/dev/input/js9"], 0⟩ ∧
    (main "joytest" ["/dev/input/js0"] (fun _ => .ok [])).exitCode = 0 :=
  ⟨((exit_code_one_iff "joytest" [] (fun _ => .ok [])).1).mpr (Or.inl rfl),
    by decide, by decide⟩

/-- C13. The timestamp is ignored: two records that agree on value, type and
number give the same maps and the same output, whatever their timestamps;
replacing the timestamps of a whole input changes neither the final maps, nor
the output, nor the number of reads. -/
theorem timestamp_ignored (axis : Int) (st : State) (g : js_event → Int)
    (input : List ReadResult) :
    (∀ e1 e2 : js_event, e1.value = e2.value → e1.type = e2.type → e1.number = e2.number →
      iteration axis e1 st = iteration axis e2 st ∧
      emit (iteration axis e1 st).2 = emit (iteration axis e2 st).2) ∧
    (∀ (r : js_event) (t : Int), iteration axis { r with time := t } st = iteration axis r st) ∧
    (loop axis (input.map (retime g)) st).state = (loop axis input st).state ∧
    (loop axis (input.map (retime g)) st).out = (loop axis input st).out ∧
    (loop axis (input.map (retime g)) st).reads = (loop axis input st).reads := by
  have hl := loop_retime axis g input st
  refine ⟨?_, fun r t => rfl, hl.1, hl.2.1, hl.2.2⟩
  intro e1 e2 hv ht hn
  have hu : update e1 st = update e2 st :=
    update_congr_mask e1 e2 st (by rw [ht]) hn hv
  have hi : iteration axis e1 st = iteration axis e2 st := by
    unfold iteration
    rw [hu]
  exact ⟨hi, by rw [hi]⟩

/-- C13, at a concrete input: the same AXIS record at two different times. -/
theorem timestamp_ignored_witness :
    iteration 0 ⟨17, -3, 2, 1⟩ ⟨[], [(0, 5)]⟩ = iteration 0 ⟨99000, -3, 2, 1⟩ ⟨[], [(0, 5)]⟩ :=
  ((timestamp_ignored 0 ⟨[], [(0, 5)]⟩ (fun _ => 0) []).1
    ⟨17, -3, 2, 1⟩ ⟨99000, -3, 2, 1⟩ rfl rfl rfl).1

/-- C14. Classification is by equality after clearing bit 0x80 alone: a record is
treated as BUTTON exactly when its type byte is 0x01 or 0x81, as AXIS exactly
when it is 0x02 or 0x82, never as both, and any other type byte, such as 0x00,
0x03 or 0x41, leaves the maps as they were. -/
theorem classification_by_type (st : State) (ev : js_event) :
    maskInit ev.type = ev.type.val % 128 ∧
    (isButton ev ↔ ev.type = 0x01 ∨ ev.type = 0x81) ∧
    (isAxis ev ↔ ev.type = 0x02 ∨ ev.type = 0x82) ∧
    ¬ (isButton ev ∧ isAxis ev) ∧
    update ev st =
      (if ev.type = 0x01 ∨ ev.type = 0x81 then
        { st with buttons := mapSet (ev.number.val : Int) (decide (ev.value ≠ 0)) st.buttons }
      else if ev.type = 0x02 ∨ ev.type = 0x82 then
        { st with axes := mapSet (ev.number.val : Int) ev.value st.axes }
      else st) ∧
    (¬ (ev.type = 0x01 ∨ ev.type = 0x81) → ¬ (ev.type = 0x02 ∨ ev.type = 0x82) →
      update ev st = st) ∧
    (∀ (t v : Int) (n : Fin 256),
      update ⟨t, v, 0x00, n⟩ st = st ∧ update ⟨t, v, 0x03, n⟩ st = st ∧
      update ⟨t, v, 0x41, n⟩ st = st) := by
  have hm := maskInit_cases ev.type
  have hb : isButton ev ↔ ev.type = 0x01 ∨ ev.type = 0x81 := hm.2.1
  have ha : isAxis ev ↔ ev.type = 0x02 ∨ ev.type = 0x82 := by
    unfold isAxis
    rw [hm.2.1, hm.2.2]
    constructor
    · exact fun h => h.2
    · intro h
      refine ⟨?_, h⟩
      rcases h with h | h <;> rw [h] <;> decide
  have hu : update ev st =
      (if ev.type = 0x01 ∨ ev.type = 0x81 then
        { st with buttons := mapSet (ev.number.val : Int) (decide (ev.value ≠ 0)) st.buttons }
      else if ev.type = 0x02 ∨ ev.type = 0x82 then
        { st with axes := mapSet (ev.number.val : Int) ev.value st.axes }
      else st) := by
    unfold update
    simp only [hm.2.1, hm.2.2]
  refine ⟨hm.1, hb, ha, ?_, hu, ?_, ?_⟩
  · rw [ha]
    intro h
    exact (hm.2.1.not.mpr (by
      rcases h.2 with h2 | h2 <;> rw [h2] <;> decide)) h.1
  · intro h1 h2
    rw [hu, if_neg h1, if_neg h2]
  · intro t v n
    have h0 : ¬ maskInit (0x00 : Fin 256) = JS_EVENT_BUTTON ∧
        ¬ maskInit (0x00 : Fin 256) = JS_EVENT_AXIS := by decide
    have h3 : ¬ maskInit (0x03 : Fin 256) = JS_EVENT_BUTTON ∧
        ¬ maskInit (0x03 : Fin 256) = JS_EVENT_AXIS := by decide
    have h41 : ¬ maskInit (0x41 : Fin 256) = JS_EVENT_BUTTON ∧
        ¬ maskInit (0x41 : Fin 256) = JS_EVENT_AXIS := by decide
    refine ⟨?_, ?_, ?_⟩
    · unfold update
      rw [if_neg h0.1, if_neg h0.2]
    · unfold update
      rw [if_neg h3.1, if_neg h3.2]
    · unfold update
      rw [if_neg h41.1, if_neg h41.2]

/-! ## Key range, cursor bounds and the state across a redraw -/

theorem mem_keys_mapSet {α : Type} (k : Int) (v : α) (m : List (Int × α)) (j : Int)
    (h : j ∈ keys (mapSet k v m)) : j = k ∨ j ∈ keys m := by
  simp only [keys, List.mem_map] at h ⊢
  obtain ⟨p, hp, rfl⟩ := h
  rcases mem_mapSet k v m p hp with h1 | h1
  · exact Or.inl (by rw [h1])
  · exact Or.inr ⟨p, h1, rfl⟩

theorem update_KeysInByte (ev : js_event) (st : State) (h : st.KeysInByte) :
    (update ev st).KeysInByte := by
  have hn : (0 : Int) ≤ (ev.number.val : Int) ∧ (ev.number.val : Int) ≤ 255 := by
    have := ev.number.isLt
    omega
  unfold update
  split_ifs
  · refine ⟨fun k hk => ?_, h.2⟩
    rcases mem_keys_mapSet _ _ _ k hk with h1 | h1
    · rw [h1]; exact hn
    · exact h.1 k h1
  · refine ⟨h.1, fun k hk => ?_⟩
    rcases mem_keys_mapSet _ _ _ k hk with h1 | h1
    · rw [h1]; exact hn
    · exact h.2 k h1
  · exact h

theorem foldl_update_KeysInByte (evs : List js_event) (st : State) (h : st.KeysInByte) :
    (evs.foldl (fun s e => update e s) st).KeysInByte := by
  induction evs generalizing st with
  | nil => exact h
  | cons e es ih => exact ih _ (update_KeysInByte e st h)

theorem init_KeysInByte : State.init.KeysInByte := by
  constructor <;> intro k hk <;> simp [State.init, keys] at hk

theorem length_le_of_ascending {α : Type} (m : List (Int × α)) (lo : Int)
    (hs : KeysAscending m) (hr : ∀ k ∈ keys m, lo ≤ k ∧ k ≤ 255) :
    (m.length : Int) ≤ max 0 (256 - lo) := by
  induction m generalizing lo with
  | nil => simp
  | cons p t ih =>
    obtain ⟨k, v⟩ := p
    unfold KeysAscending at hs
    rw [List.pairwise_cons] at hs
    have hk : lo ≤ k ∧ k ≤ 255 := hr k (by simp [keys])
    have ht : ∀ j ∈ keys t, k + 1 ≤ j ∧ j ≤ 255 := by
      intro j hj
      simp only [keys, List.mem_map] at hj
      obtain ⟨q, hq, rfl⟩ := hj
      have h1 := hs.1 q hq
      have h2 := hr q.1 (by simp only [keys, List.mem_map]; exact ⟨q, List.mem_cons_of_mem _ hq, rfl⟩)
      simp only at h1
      omega
    have := ih (k + 1) hs.2 ht
    simp only [List.length_cons, Nat.cast_add, Nat.cast_one]
    omega

theorem length_le_256 {α : Type} (m : List (Int × α))
    (hs : KeysAscending m) (hr : ∀ k ∈ keys m, 0 ≤ k ∧ k ≤ 255) : m.length ≤ 256 := by
  have := length_le_of_ascending m 0 hs hr
  omega

theorem render_out_of_range (axis : Int) (st : State) (h : axis < 0 ∨ 254 < axis)
    (hk : st.KeysInByte) : (render axis st).2 = drawLines st := by
  apply render_out_absent
  rw [mapFind_isSome_iff, mapFind_isSome_iff]
  intro hc
  have h1 := hk.2 axis hc.1
  have h2 := hk.2 (axis + 1) hc.2
  omega

theorem filter_drawLines (st : State) :
    (drawLines st).filter (fun o => !isCursorStep o) = drawLines st := by
  rw [List.filter_eq_self]
  intro o ho
  simp only [drawLines, List.mem_cons, List.mem_append, List.mem_map] at ho
  rcases ho with rfl | ⟨p, _, rfl⟩ | ⟨p, _, rfl⟩ <;> rfl

theorem filter_render (axis : Int) (st : State) :
    (render axis st).2.filter (fun o => !isCursorStep o) = drawLines st := by
  unfold render
  split_ifs
  · rw [List.filter_append, filter_drawLines]
    simp [isCursorStep]
  · exact filter_drawLines st

theorem renders_out_of_range (axis axis' : Int) (evs : List js_event) (st : State)
    (h : axis < 0 ∨ 254 < axis) (hk : st.KeysInByte) :
    renders axis evs st = (renders axis' evs st).filter (fun o => !isCursorStep o) := by
  induction evs generalizing st with
  | nil => simp [renders]
  | cons e es ih =>
    have hk' := update_KeysInByte e st hk
    rw [renders_cons, renders_cons, List.filter_append, filter_render,
      render_out_of_range axis _ h hk', ih _ hk']

theorem not_cursorStep_of_mem_filter (l : List Out) (o : Out)
    (h : o ∈ l.filter (fun o => !isCursorStep o)) : isCursorStep o = false := by
  have := (List.mem_filter.mp h).2
  simpa using this

theorem axisLine_mem_render (axis : Int) (st : State) (n v : Int) :
    Out.axisLine n v ∈ (render axis st).2 ↔ (n, v) ∈ st.axes := by
  rw [← axisLine_mem_drawLines]
  unfold render
  split_ifs <;> simp

/-- C15. An axis index out of range is inert. Every key of either map reachable
from the empty maps lies in [0, 255], so each map has at most 256 entries; for
every `axis` outside [0, 254] and every input no redraw makes the cursor call
or the flush, the final maps are those of any other axis index, and the output
is that of any other axis index with the cursor steps taken out. -/
theorem out_of_range_axis_inert (axis : Int) (h : axis < 0 ∨ 254 < axis) (axis' : Int)
    (input : List ReadResult) (evs : List js_event) :
    ((∀ k ∈ keys (stateAfter evs).buttons, 0 ≤ k ∧ k ≤ 255) ∧
      (∀ k ∈ keys (stateAfter evs).axes, 0 ≤ k ∧ k ≤ 255)) ∧
    ((stateAfter evs).buttons.length ≤ 256 ∧ (stateAfter evs).axes.length ≤ 256) ∧
    (∀ y x, Out.cursor y x ∉ (loop axis input State.init).out) ∧
    Out.flush ∉ (loop axis input State.init).out ∧
    (∀ y x, Out.cursor y x ∉ (render axis (stateAfter evs)).2) ∧
    (loop axis input State.init).state = (loop axis' input State.init).state ∧
    (loop axis input State.init).out =
      (loop axis' input State.init).out.filter (fun o => !isCursorStep o) := by
  have hk : (stateAfter evs).KeysInByte := foldl_update_KeysInByte evs _ init_KeysInByte
  have hw : (stateAfter evs).WF := stateAfter_WF evs
  have hout : (loop axis input State.init).out =
      (loop axis' input State.init).out.filter (fun o => !isCursorStep o) := by
    rw [loop_eq_fullRecords, loop_eq_fullRecords]
    exact renders_out_of_range axis axis' _ _ h init_KeysInByte
  refine ⟨hk, ⟨length_le_256 _ hw.1 hk.1, length_le_256 _ hw.2 hk.2⟩, ?_, ?_, ?_, ?_, hout⟩
  · intro y x hm
    rw [hout] at hm
    have := not_cursorStep_of_mem_filter _ _ hm
    simp [isCursorStep] at this
  · intro hm
    rw [hout] at hm
    have := not_cursorStep_of_mem_filter _ _ hm
    simp [isCursorStep] at this
  · intro y x hm
    rw [render_out_of_range axis _ h hk] at hm
    exact cursor_not_mem_drawLines _ y x hm
  · rw [loop_eq_fullRecords, loop_eq_fullRecords]

/-- C15, at a concrete input: axes 254 and 255 reported, axis index 255, against
the same input with axis index 254. -/
theorem out_of_range_axis_inert_witness :
    (255 < 0 ∨ 254 < (255 : Int)) ∧
    (loop 255 [fullRead ⟨0, 7, 2, 254⟩, fullRead ⟨0, 9, 2, 255⟩] State.init).out =
      [Out.home, Out.axisLine 254 7, Out.home, Out.axisLine 254 7, Out.axisLine 255 9] ∧
    (loop 254 [fullRead ⟨0, 7, 2, 254⟩, fullRead ⟨0, 9, 2, 255⟩] State.init).out =
      [Out.home, Out.axisLine 254 7, Out.home, Out.axisLine 254 7, Out.axisLine 255 9,
        Out.cursor 11 21, Out.flush] ∧
    Out.flush ∉ (loop 255 [fullRead ⟨0, 7, 2, 254⟩, fullRead ⟨0, 9, 2, 255⟩] State.init).out :=
  ⟨by decide, by decide, by decide,
    (out_of_range_axis_inert 255 (by decide) 254
      [fullRead ⟨0, 7, 2, 254⟩, fullRead ⟨0, 9, 2, 255⟩] []).2.2.2.1⟩

/-- C16. For all signed 16-bit axis values `a` and `b`, -32768 included, the
cursor has `1 ≤ x ≤ 41` and `1 ≤ y ≤ 21`; the products `a*20` and `b*10` fit a
signed 32-bit integer, so the arithmetic modulo 2^32 gives the same as exact
arithmetic; a redraw never makes a cursor call with a column or row below 1. -/
theorem cursor_within_bounds (axis : Int) (st : State) (a b : Int)
    (ha : IsS16 a) (hb : IsS16 b) :
    (1 ≤ cursorX a ∧ cursorX a ≤ 41) ∧
    (1 ≤ cursorY b ∧ cursorY b ≤ 21) ∧
    (-2147483648 ≤ a * 20 ∧ a * 20 ≤ 2147483647) ∧
    (-2147483648 ≤ b * 10 ∧ b * 10 ≤ 2147483647) ∧
    (mul32 a 20 = a * 20 ∧ mul32 b 10 = b * 10) ∧
    (cursorX a = Int.tdiv (a * 20) 32767 + 21 ∧ cursorY b = Int.tdiv (b * 10) 32767 + 11) ∧
    (cursorX (-32768) = 1 ∧ cursorY (-32768) = 1 ∧ cursorX 32767 = 41 ∧ cursorY 32767 = 21) ∧
    (mapFind axis st.axes = some a → mapFind (axis + 1) st.axes = some b →
      ∀ y x, Out.cursor y x ∈ (render axis st).2 → (1 ≤ x ∧ x ≤ 41) ∧ (1 ≤ y ∧ y ≤ 21)) := by
  have hxe := cursorX_eq a ha
  have hye := cursorY_eq b hb
  obtain ⟨ha1, ha2⟩ := ha
  obtain ⟨hb1, hb2⟩ := hb
  have hqa := tdiv_32767_range (a * 20) 20 (by decide) (by omega) (by omega)
  have hqb := tdiv_32767_range (b * 10) 10 (by decide) (by omega) (by omega)
  have hx : 1 ≤ cursorX a ∧ cursorX a ≤ 41 := by rw [hxe]; omega
  have hy : 1 ≤ cursorY b ∧ cursorY b ≤ 21 := by rw [hye]; omega
  refine ⟨hx, hy, ⟨by omega, by omega⟩, ⟨by omega, by omega⟩, ⟨?_, ?_⟩, ⟨hxe, hye⟩,
    by decide, ?_⟩
  · exact wrap32_of_range (a * 20) (by omega) (by omega)
  · exact wrap32_of_range (b * 10) (by omega) (by omega)
  · intro hfa hfb y x hm
    rw [render_out_present axis st a b hfa hfb] at hm
    rcases List.mem_append.mp hm with h1 | h1
    · exact absurd h1 (cursor_not_mem_drawLines st y x)
    · simp only [List.mem_cons, Out.cursor.injEq, List.mem_singleton, reduceCtorEq,
        or_false, List.not_mem_nil] at h1
      obtain ⟨rfl, rfl⟩ := h1
      exact ⟨hx, hy⟩

/-- C16, at a concrete input: both axes at -32768, the value outside the
documented range. -/
theorem cursor_within_bounds_witness :
    IsS16 (-32768) ∧ (1 ≤ cursorX (-32768) ∧ cursorX (-32768) ≤ 41) ∧
    (render 0 ⟨[], [(0, -32768), (1, -32768)]⟩).2 =
      [Out.home, Out.axisLine 0 (-32768), Out.axisLine 1 (-32768), Out.cursor 1 1, Out.flush] :=
  ⟨by decide,
    (cursor_within_bounds 0 ⟨[], [(0, -32768), (1, -32768)]⟩ (-32768) (-32768)
      (by decide) (by decide)).1,
    by decide⟩

/-- C17. A redraw never changes the maps: both are the same before and after it,
for every state and every axis index; the accesses `axes[axis]` and
`axes[axis+1]`, which would insert a zero entry for an absent key, are made
only for keys that are present. So the maps after any run are those of the
records alone, every key of `axes` comes from an AXIS record, and an axis line
is drawn only for an entry of `axes`. -/
theorem render_keeps_state (axis : Int) (st : State) (ev : js_event)
    (input : List ReadResult) :
    (render axis st).1 = st ∧
    ((render axis st).1.buttons = st.buttons ∧ (render axis st).1.axes = st.axes) ∧
    (iteration axis ev st).1 = update ev st ∧
    (loop axis input st).state = (fullRecords input).foldl (fun s e => update e s) st ∧
    (∀ n, n ∈ keys (loop axis input State.init).state.axes ↔
      ∃ e ∈ fullRecords input, isAxis e ∧ (e.number.val : Int) = n) ∧
    (∀ n v, Out.axisLine n v ∈ (render axis (render axis st).1).2 ↔ (n, v) ∈ st.axes) ∧
    (mapAt 5 [] = (0, [(5, 0)]) ∧ (render 5 ⟨[], []⟩).1 = ⟨[], []⟩ ∧
      (render 5 ⟨[], [(5, 1)]⟩).1 = ⟨[], [(5, 1)]⟩) := by
  have hr := render_state axis st
  refine ⟨hr, ⟨by rw [hr], by rw [hr]⟩, iteration_state axis ev st, ?_, ?_, ?_, by decide⟩
  · rw [loop_eq_fullRecords]
  · intro n
    rw [loop_eq_fullRecords, ← mapFind_isSome_iff]
    simp only
    rw [foldl_axes_isSome]
    simp [State.init, mapFind]
  · intro n v
    rw [hr, axisLine_mem_render]

end Joytest
